import Mathlib

/-!
Verification of the analytics functions of `src/untitled0.py` (a Streamlit
financial dashboard).  The functions under study are pure transformations of
in-memory price series, so they are embedded shallowly: a pandas `Series` of
prices becomes a `List` over a linear ordered field (`ℚ` for concrete
witnesses, `ℝ` where a square root is taken), and the float value NaN —
which pandas produces for degenerate inputs and which propagates through
arithmetic — is modelled by `Option`, with `none` playing the role of NaN.
-/

namespace Dashboard

/-- Arithmetic mean of a list, as computed by pandas `Series.mean()` on a
nonempty series: sum divided by length.  Callers that can face an empty
series (where pandas yields NaN) go through `meanOpt`. -/
def listMean {K : Type} [LinearOrderedField K] (xs : List K) : K :=
  xs.sum / (xs.length : K)

/-- pandas `Series.mean()`: NaN (modelled as `none`) on an empty series,
otherwise the arithmetic mean. -/
def meanOpt {K : Type} [LinearOrderedField K] (xs : List K) : Option K :=
  if xs.isEmpty then none else some (listMean xs)

/-- Sample variance with the pandas default `ddof = 1`: sum of squared
deviations from the mean, divided by `n - 1`.  Only meaningful when
`2 ≤ xs.length`; `stdOpt` guards that. -/
def sampleVar {K : Type} [LinearOrderedField K] (xs : List K) : K :=
  ((xs.map (fun x => (x - listMean xs) ^ 2)).sum) / ((xs.length : K) - 1)

/-- pandas `Series.std()` with the default `ddof = 1`: the square root of the
sample variance for series of length at least 2, and NaN (modelled `none`)
for shorter series, where the `n - 1` divisor makes the value undefined. -/
noncomputable def stdOpt (xs : List ℝ) : Option ℝ :=
  if xs.length < 2 then none else some (Real.sqrt (sampleVar xs))

/-- pandas `prices.pct_change().dropna()` on an all-numeric price series:
element `i` of the result is `prices[i+1]/prices[i] - 1`; the NaN that
`pct_change` places at position 0 is removed by `dropna`. -/
def pct_change {K : Type} [LinearOrderedField K] (prices : List K) : List K :=
  List.zipWith (fun prev cur => cur / prev - 1) prices prices.tail

/-- ReturnSeries as the spec words it: one element shorter than its source
PriceSeries, element `i = price[i]/price[i-1] - 1`, no element for `i = 0`.
Written independently of `pct_change` so the code's return computation can be
compared against it. -/
def returnSeries {K : Type} [LinearOrderedField K] (prices : List K) : List K :=
  (List.range (prices.length - 1)).map
    (fun i => prices.getD (i + 1) 0 / prices.getD i 0 - 1)

/-- `calculate_returns` from `src/untitled0.py` (lines 789–793): total return
in percent, `((prices.iloc[-1] / prices.iloc[0]) - 1) * 100`, with the
explicit guard returning `0.0` for series of fewer than 2 observations. -/
def calculate_returns {K : Type} [LinearOrderedField K] (prices : List K) : K :=
  if prices.length < 2 then 0
  else (prices.getLast?.getD 0 / prices.head?.getD 0 - 1) * 100

example : calculate_returns [(100 : ℚ), 110, 99, 105] = 5 := by
  simp [calculate_returns]
  norm_num

example : pct_change [(100 : ℚ), 110, 99] = [1/10, -1/10] := by
  simp [pct_change]
  norm_num

example : returnSeries [(100 : ℚ), 110, 99] = [1/10, -1/10] := by
  simp [returnSeries, List.range_succ]
  norm_num

/-- The code's return computation (`pct_change` followed by `dropna`) produces
exactly the spec's ReturnSeries. -/
theorem pct_change_eq_returnSeries {K : Type} [LinearOrderedField K] :
    ∀ prices : List K, pct_change prices = returnSeries prices := by
  intro prices
  induction prices with
  | nil => rfl
  | cons p rest ih =>
    cases rest with
    | nil => rfl
    | cons q rest' =>
      have ih' := ih
      simp only [pct_change, returnSeries] at ih' ⊢
      simp only [List.length_cons, Nat.add_sub_cancel] at ih' ⊢
      rw [List.range_succ_eq_map]
      simp only [List.tail_cons, List.zipWith_cons_cons, List.map_cons,
        List.map_map]
      congr 1

/-- C1: for every price series with at least 2 observations,
`calculate_returns` yields `(last/first - 1) * 100`, and for every series
with fewer than 2 observations it yields exactly `0` (a defined
degenerate-input result, not an error). -/
theorem calculate_returns_spec {K : Type} [LinearOrderedField K] :
    (∀ (a b : K) (mid : List K),
      calculate_returns (a :: (mid ++ [b])) = (b / a - 1) * 100)
    ∧ ∀ prices : List K, prices.length < 2 → calculate_returns prices = 0 := by
  constructor
  · intro a b mid
    have hlen : ¬ (a :: (mid ++ [b])).length < 2 := by
      simp
    rw [calculate_returns, if_neg hlen]
    have hlast : (a :: (mid ++ [b])).getLast? = some b := by
      rw [show a :: (mid ++ [b]) = (a :: mid) ++ [b] by simp]
      exact List.getLast?_concat _
    simp [hlast]
  · intro prices h
    simp [calculate_returns, h]

/-- Witness for C1 at concrete inputs: the singleton series `[5]` falls under
the degenerate guard, and `[100, 105]` returns `(105/100 - 1) * 100`. -/
theorem calculate_returns_spec_witness :
    ([(5 : ℚ)].length < 2 ∧ calculate_returns [(5 : ℚ)] = 0)
    ∧ calculate_returns ((100 : ℚ) :: ([] ++ [105])) = ((105 : ℚ) / 100 - 1) * 100 :=
  ⟨⟨by decide, calculate_returns_spec.2 [5] (by decide)⟩,
    calculate_returns_spec.1 100 105 []⟩

/-- Helper for pandas `Series.cummax()`: running maximum of the remaining
elements, given the maximum `m` of the elements already passed. -/
def cummaxAux {K : Type} [LinearOrderedField K] (m : K) : List K → List K
  | [] => []
  | x :: xs => max m x :: cummaxAux (max m x) xs

/-- pandas `prices.cummax()`: the monotonically non-decreasing left-to-right
running maximum, seeded with the first element. -/
def cummax {K : Type} [LinearOrderedField K] : List K → List K
  | [] => []
  | x :: xs => x :: cummaxAux x xs

/-- One element of the drawdown computation: `(price - peak) / peak * 100`. -/
def ddElem {K : Type} [LinearOrderedField K] (p peak : K) : K :=
  (p - peak) / peak * 100

/-- `calculate_drawdown` from `src/untitled0.py` (lines 805–809):
`peak = prices.cummax(); (prices - peak) / peak * 100`, elementwise. -/
def calculate_drawdown {K : Type} [LinearOrderedField K] (prices : List K) : List K :=
  List.zipWith ddElem prices (cummax prices)

/-- Running maximum of `price[0..i]` as the spec words it: the maximum over
the whole prefix ending at position `i`, seeded with `price[0]`. -/
def prefixMax {K : Type} [LinearOrderedField K] : List K → ℕ → K
  | [], _ => 0
  | p :: rest, i => (rest.take i).foldl max p

/-- pandas `Series.min()`: NaN (modelled `none`) on an empty series,
otherwise the least element. -/
def seriesMin {K : Type} [LinearOrderedField K] : List K → Option K
  | [] => none
  | x :: xs => some (xs.foldl min x)

/-- `max_dd1` / `max_dd2` from `src/untitled0.py` (lines 1080, 1083):
`df['Drawdown'].min()`, where the `Drawdown` column was filled with
`calculate_drawdown(df['Close'])` (lines 1039–1040). -/
def max_dd {K : Type} [LinearOrderedField K] (prices : List K) : Option K :=
  seriesMin (calculate_drawdown prices)

example : calculate_drawdown [(100 : ℚ), 110, 99, 105] = [0, 0, -10, -50/11] := by
  norm_num [calculate_drawdown, cummax, cummaxAux, ddElem, max_def]

example : max_dd [(100 : ℚ), 110, 99, 105] = some (-10) := by
  norm_num [max_dd, seriesMin, calculate_drawdown, cummax, cummaxAux, ddElem,
    max_def, min_def]

theorem cummaxAux_length {K : Type} [LinearOrderedField K] :
    ∀ (xs : List K) (m : K), (cummaxAux m xs).length = xs.length := by
  intro xs
  induction xs with
  | nil => intro m; rfl
  | cons x xs ih => intro m; simp [cummaxAux, ih]

theorem cummax_length {K : Type} [LinearOrderedField K] (prices : List K) :
    (cummax prices).length = prices.length := by
  cases prices with
  | nil => rfl
  | cons p rest => simp [cummax, cummaxAux_length]

theorem cummaxAux_getD {K : Type} [LinearOrderedField K] :
    ∀ (xs : List K) (m : K) (i : ℕ), i < xs.length →
      (cummaxAux m xs).getD i 0 = (xs.take (i + 1)).foldl max m := by
  intro xs
  induction xs with
  | nil => intro m i h; simp at h
  | cons x xs ih =>
    intro m i h
    cases i with
    | zero => simp [cummaxAux]
    | succ i =>
      simp only [cummaxAux, List.getD_cons_succ, List.take_succ_cons,
        List.foldl_cons]
      exact ih (max m x) i (by simpa using h)

/-- The pandas scan `cummax` computes, at every position, the maximum of the
prefix ending there — the spec's runningMax. -/
theorem cummax_getD {K : Type} [LinearOrderedField K] (prices : List K)
    (i : ℕ) (h : i < prices.length) :
    (cummax prices).getD i 0 = prefixMax prices i := by
  cases prices with
  | nil => simp at h
  | cons p rest =>
    cases i with
    | zero => simp [cummax, prefixMax]
    | succ i =>
      simp only [cummax, List.getD_cons_succ, prefixMax]
      exact cummaxAux_getD rest p i (by simpa using h)

theorem le_foldl_max {K : Type} [LinearOrderedField K] :
    ∀ (xs : List K) (c : K), c ≤ xs.foldl max c := by
  intro xs
  induction xs with
  | nil => intro c; simp
  | cons x xs ih =>
    intro c
    calc c ≤ max c x := le_max_left _ _
      _ ≤ xs.foldl max (max c x) := ih (max c x)

theorem drawdown_aux_nonpos {K : Type} [LinearOrderedField K] :
    ∀ (xs : List K) (m : K), 0 < m →
      ∀ y ∈ List.zipWith ddElem xs (cummaxAux m xs), y ≤ 0 := by
  intro xs
  induction xs with
  | nil => intro m _ y hy; simp [cummaxAux] at hy
  | cons x xs ih =>
    intro m hm y hy
    simp only [cummaxAux, List.zipWith_cons_cons, List.mem_cons] at hy
    rcases hy with rfl | hy
    · have h1 : x - max m x ≤ 0 := by
        have := le_max_right m x
        linarith
      have h2 : 0 < max m x := lt_of_lt_of_le hm (le_max_left m x)
      have h3 : (x - max m x) / max m x ≤ 0 :=
        div_nonpos_of_nonpos_of_nonneg h1 h2.le
      unfold ddElem
      linarith
    · exact ih (max m x) (lt_of_lt_of_le hm (le_max_left m x)) y hy

theorem cummaxAux_of_chain {K : Type} [LinearOrderedField K] :
    ∀ (xs : List K) (m : K), List.Chain' (· ≤ ·) (m :: xs) →
      cummaxAux m xs = xs := by
  intro xs
  induction xs with
  | nil => intro m _; rfl
  | cons x xs ih =>
    intro m hc
    rw [List.chain'_cons] at hc
    obtain ⟨hmx, hc'⟩ := hc
    simp only [cummaxAux, max_eq_right hmx]
    rw [ih x hc']

theorem foldl_min_le {K : Type} [LinearOrderedField K] :
    ∀ (xs : List K) (c : K), xs.foldl min c ≤ c := by
  intro xs
  induction xs with
  | nil => intro c; simp
  | cons x xs ih =>
    intro c
    calc xs.foldl min (min c x) ≤ min c x := ih (min c x)
      _ ≤ c := min_le_left _ _

theorem foldl_min_eq {K : Type} [LinearOrderedField K] :
    ∀ (xs : List K) (c : K), (∀ x ∈ xs, c ≤ x) → xs.foldl min c = c := by
  intro xs
  induction xs with
  | nil => intro c _; rfl
  | cons x xs ih =>
    intro c h
    have hx : c ≤ x := h x (List.mem_cons_self _ _)
    simp only [List.foldl_cons, min_eq_left hx]
    exact ih c fun z hz => h z (List.mem_cons_of_mem _ hz)

/-- C4: for every non-empty price series (positive closes, per the data
model), the drawdown series has the same length as the input, element `i`
equals `(price[i] - runningMax(price[0..i])) / runningMax(price[0..i]) * 100`,
element 0 equals 0, and every element is ≤ 0. -/
theorem calculate_drawdown_spec {K : Type} [LinearOrderedField K]
    (prices : List K) (hne : prices ≠ []) (hpos : ∀ x ∈ prices, 0 < x) :
    (calculate_drawdown prices).length = prices.length
    ∧ (∀ i, i < prices.length →
        (calculate_drawdown prices).getD i 0
          = (prices.getD i 0 - prefixMax prices i) / prefixMax prices i * 100)
    ∧ (calculate_drawdown prices).getD 0 0 = 0
    ∧ ∀ y ∈ calculate_drawdown prices, y ≤ 0 := by
  have hlen : (calculate_drawdown prices).length = prices.length := by
    simp [calculate_drawdown, cummax_length]
  refine ⟨hlen, ?_, ?_, ?_⟩
  · intro i hi
    have h1 : i < (calculate_drawdown prices).length := by rw [hlen]; exact hi
    have h2 : i < (cummax prices).length := by rw [cummax_length]; exact hi
    rw [List.getD_eq_getElem _ _ h1, List.getD_eq_getElem _ _ hi,
      ← cummax_getD prices i hi, List.getD_eq_getElem _ _ h2]
    simp only [calculate_drawdown, List.getElem_zipWith]
    rfl
  · obtain ⟨p, rest, rfl⟩ := List.exists_cons_of_ne_nil hne
    simp [calculate_drawdown, cummax, ddElem]
  · obtain ⟨p, rest, rfl⟩ := List.exists_cons_of_ne_nil hne
    intro y hy
    simp only [calculate_drawdown, cummax, List.zipWith_cons_cons,
      List.mem_cons] at hy
    rcases hy with rfl | hy
    · simp [ddElem]
    · exact drawdown_aux_nonpos rest p
        (hpos p (List.mem_cons_self _ _)) y hy

/-- Witness for C4 at the spec's own concrete scenario
`[100, 110, 99, 105]`. -/
theorem calculate_drawdown_spec_witness :
    (([(100 : ℚ), 110, 99, 105] : List ℚ) ≠ []
      ∧ ∀ x ∈ [(100 : ℚ), 110, 99, 105], 0 < x)
    ∧ ((calculate_drawdown [(100 : ℚ), 110, 99, 105]).length
          = [(100 : ℚ), 110, 99, 105].length
      ∧ (∀ i, i < [(100 : ℚ), 110, 99, 105].length →
          (calculate_drawdown [(100 : ℚ), 110, 99, 105]).getD i 0
            = ([(100 : ℚ), 110, 99, 105].getD i 0
                - prefixMax [(100 : ℚ), 110, 99, 105] i)
              / prefixMax [(100 : ℚ), 110, 99, 105] i * 100)
      ∧ (calculate_drawdown [(100 : ℚ), 110, 99, 105]).getD 0 0 = 0
      ∧ ∀ y ∈ calculate_drawdown [(100 : ℚ), 110, 99, 105], y ≤ 0) :=
  ⟨⟨by decide, by decide⟩,
    calculate_drawdown_spec [(100 : ℚ), 110, 99, 105] (by decide) (by decide)⟩

/-- C5 counterexample: on the empty price series (vacuously monotonically
non-decreasing), `df['Drawdown'].min()` is pandas NaN (modelled `none`), not
the value 0 the claim requires, and it is not ≤ 0. -/
theorem max_dd_empty : max_dd ([] : List ℚ) = none
    ∧ max_dd ([] : List ℚ) ≠ some 0 := by
  constructor
  · rfl
  · decide

/-- C5 (amended): for every NON-EMPTY price series (positive closes),
`max_dd` equals the minimum of the drawdown series, its value is ≤ 0, and for
a monotonically non-decreasing series the value is exactly 0. -/
theorem max_dd_spec {K : Type} [LinearOrderedField K] (prices : List K)
    (hne : prices ≠ []) (hpos : ∀ x ∈ prices, 0 < x) :
    max_dd prices = seriesMin (calculate_drawdown prices)
    ∧ ∃ v, max_dd prices = some v ∧ v ≤ 0
        ∧ (List.Chain' (· ≤ ·) prices → v = 0) := by
  refine ⟨rfl, ?_⟩
  obtain ⟨p, rest, rfl⟩ := List.exists_cons_of_ne_nil hne
  have hd0 : calculate_drawdown (p :: rest)
      = 0 :: List.zipWith ddElem rest (cummaxAux p rest) := by
    simp [calculate_drawdown, cummax, ddElem]
  refine ⟨(List.zipWith ddElem rest (cummaxAux p rest)).foldl min 0, ?_, ?_, ?_⟩
  · rw [max_dd, hd0]; rfl
  · exact foldl_min_le _ 0
  · intro hch
    have hcm : cummaxAux p rest = rest := cummaxAux_of_chain rest p hch
    have hz : ∀ x ∈ List.zipWith ddElem rest (cummaxAux p rest), (0 : K) ≤ x := by
      rw [hcm, List.zipWith_same]
      intro x hx
      obtain ⟨a, _, rfl⟩ := List.mem_map.1 hx
      simp [ddElem]
    exact foldl_min_eq _ 0 hz

/-- Witness for C5 at the concrete non-decreasing series `[1, 2, 4]`. -/
theorem max_dd_spec_witness :
    (([(1 : ℚ), 2, 4] : List ℚ) ≠ [] ∧ ∀ x ∈ [(1 : ℚ), 2, 4], 0 < x)
    ∧ (max_dd [(1 : ℚ), 2, 4] = seriesMin (calculate_drawdown [(1 : ℚ), 2, 4])
      ∧ ∃ v, max_dd [(1 : ℚ), 2, 4] = some v ∧ v ≤ 0
          ∧ (List.Chain' (· ≤ ·) [(1 : ℚ), 2, 4] → v = 0)) :=
  ⟨⟨by decide, by decide⟩,
    max_dd_spec [(1 : ℚ), 2, 4] (by decide) (by decide)⟩

/-- `pd.merge(df1, df2, on='Date', how='inner')` from `src/untitled0.py`
(lines 998–1002 for the plotting frame, 1128–1133 for the correlation frame):
each row of the left frame, in order, is kept and paired with the matching
right-frame row exactly when its date also occurs on the right.  Dates are
embedded as naturals; faithful under the data model's no-duplicate-dates
precondition. -/
def mergeInner {α β : Type} (df1 : List (ℕ × α)) (df2 : List (ℕ × β)) :
    List (ℕ × α × β) :=
  df1.filterMap (fun r => (df2.lookup r.1).map (fun p2 => (r.1, r.2, p2)))

theorem lookup_mem {β : Type} :
    ∀ (l : List (ℕ × β)) (d : ℕ) (b : β), l.lookup d = some b → (d, b) ∈ l := by
  intro l
  induction l with
  | nil => intro d b h; simp [List.lookup] at h
  | cons r rest ih =>
    intro d b h
    rcases r with ⟨k, v⟩
    simp only [List.lookup] at h
    split at h
    · rename_i heq
      obtain rfl : d = k := by simpa using heq
      obtain rfl : v = b := by simpa using h
      exact List.mem_cons_self _ _
    · exact List.mem_cons_of_mem _ (ih d b h)

theorem lookup_isSome_iff {β : Type} :
    ∀ (l : List (ℕ × β)) (d : ℕ),
      (l.lookup d).isSome ↔ d ∈ l.map (fun r => r.1) := by
  intro l
  induction l with
  | nil => intro d; simp [List.lookup]
  | cons r rest ih =>
    intro d
    rcases r with ⟨k, v⟩
    simp only [List.lookup, List.map_cons, List.mem_cons]
    by_cases hdk : d = k
    · subst hdk
      simp
    · have : (d == k) = false := by simpa using hdk
      rw [this]
      simp [ih d, hdk]

/-- C7: combining two per-asset frames goes through an inner join on date:
the output's date column is exactly the left date column filtered to dates
also present on the right (hence its date set is the intersection of the two
date sets), and every output row pairs a left value and a right value carried
by the SAME calendar date. -/
theorem merged_inner_join {α β : Type}
    (df1 : List (ℕ × α)) (df2 : List (ℕ × β)) :
    ((mergeInner df1 df2).map (fun r => r.1)
      = (df1.map (fun r => r.1)).filter
          (fun d => decide (d ∈ df2.map (fun r => r.1))))
    ∧ (∀ d a b, (d, a, b) ∈ mergeInner df1 df2 → (d, a) ∈ df1 ∧ (d, b) ∈ df2)
    ∧ ∀ d, (d ∈ (mergeInner df1 df2).map (fun r => r.1)
        ↔ d ∈ df1.map (fun r => r.1) ∧ d ∈ df2.map (fun r => r.1)) := by
  have h1 : (mergeInner df1 df2).map (fun r => r.1)
      = (df1.map (fun r => r.1)).filter
          (fun d => decide (d ∈ df2.map (fun r => r.1))) := by
    induction df1 with
    | nil => rfl
    | cons r rest ih =>
      rcases r with ⟨d, a⟩
      simp only [mergeInner, List.filterMap_cons, List.map_cons,
        List.filter_cons] at ih ⊢
      rcases hl : df2.lookup d with _ | v
      · have hmem : ¬ d ∈ df2.map (fun r => r.1) := by
          rw [← lookup_isSome_iff df2 d, hl]
          simp
        simp only [Option.map_none']
        rw [ih]
        simp [hmem]
      · have hmem : d ∈ df2.map (fun r => r.1) := by
          rw [← lookup_isSome_iff df2 d, hl]
          rfl
        simp only [Option.map_some', List.map_cons]
        rw [ih]
        simp [hmem]
  refine ⟨h1, ?_, ?_⟩
  · intro d a b h
    simp only [mergeInner, List.mem_filterMap] at h
    obtain ⟨r, hr, heq⟩ := h
    rcases r with ⟨rd, ra⟩
    rcases hop : df2.lookup rd with _ | p2
    · rw [hop] at heq
      simp at heq
    · rw [hop] at heq
      simp only [Option.map_some', Option.some.injEq, Prod.ext_iff] at heq
      obtain ⟨rfl, rfl, rfl⟩ := heq
      exact ⟨hr, lookup_mem df2 rd p2 hop⟩
  · intro d
    rw [h1, List.mem_filter]
    simp

/-- Witness for C7: a concrete join in which date 1 occurs only on the left
and is dropped, while date 2 pairs the two prices carried by date 2. -/
theorem merged_inner_join_witness :
    ((2, 20, 30) ∈ mergeInner [((1 : ℕ), (10 : ℕ)), (2, 20)] [((2 : ℕ), (30 : ℕ))])
    ∧ ((2, 20) ∈ [((1 : ℕ), (10 : ℕ)), (2, 20)]
        ∧ (2, 30) ∈ [((2 : ℕ), (30 : ℕ))]) :=
  ⟨by decide,
    (merged_inner_join [((1 : ℕ), (10 : ℕ)), (2, 20)] [((2 : ℕ), (30 : ℕ))]).2.1
      2 20 30 (by decide)⟩

/-- `calculate_volatility` from `src/untitled0.py` (lines 796–802):
`returns.std()` — NaN (`none`) when fewer than 2 returns exist — scaled by
`sqrt 252` when `annualize`, expressed in percent.  NaN propagates through
the scaling exactly as pandas floats propagate it. -/
noncomputable def calculate_volatility (prices : List ℝ) (annualize : Bool) :
    Option ℝ :=
  (stdOpt (pct_change prices)).map
    (fun vol => (if annualize then vol * Real.sqrt 252 else vol) * 100)

/-- `calculate_sharpe_ratio` from `src/untitled0.py` (lines 812–819).  The
Python guard `if volatility == 0: return 0` compares floats; a NaN volatility
is NOT equal to 0, so the guard does not fire and the division then
propagates NaN.  NaN is modelled as `none`, so the guard is the test
`volatility = some 0`. -/
noncomputable def calculate_sharpe_ratio (prices : List ℝ)
    (risk_free_rate : ℝ) : Option ℝ :=
  let returns := pct_change prices
  let excess_return := (meanOpt returns).map (fun m => m * 252 - risk_free_rate)
  let volatility := (stdOpt returns).map (fun s => s * Real.sqrt 252)
  if volatility = some 0 then some 0
  else excess_return.bind (fun e => volatility.map (fun v => e / v))

/-- `normalize_series` from `src/untitled0.py` (lines 784–786):
`(series - series.mean()) / series.std()` elementwise.  When the std is NaN
(fewer than 2 observations), or 0 (constant series, where each numerator is
also 0 and `0.0/0.0` is NaN), every element of the result is NaN. -/
noncomputable def normalize_series (series : List ℝ) : List (Option ℝ) :=
  match stdOpt series with
  | none => series.map (fun _ => none)
  | some s =>
      if s = 0 then series.map (fun _ => none)
      else series.map (fun x => some ((x - listMean series) / s))

theorem sum_map_affine (a b : ℝ) :
    ∀ xs : List ℝ,
      (xs.map (fun x => a * x + b)).sum = a * xs.sum + xs.length * b := by
  intro xs
  induction xs with
  | nil => simp
  | cons x xs ih =>
    simp only [List.map_cons, List.sum_cons, ih, List.length_cons]
    push_cast
    ring

theorem listMean_map_affine (a b : ℝ) (xs : List ℝ) (h : xs ≠ []) :
    listMean (xs.map (fun x => a * x + b)) = a * listMean xs + b := by
  have hn : (xs.length : ℝ) ≠ 0 := by
    have := List.length_pos.2 h
    positivity
  rw [listMean, listMean, List.length_map, sum_map_affine]
  field_simp
  ring

theorem sampleVar_map_affine (a b : ℝ) (xs : List ℝ) (h : xs ≠ []) :
    sampleVar (xs.map (fun x => a * x + b)) = a ^ 2 * sampleVar xs := by
  rw [sampleVar, sampleVar, List.length_map, listMean_map_affine a b xs h,
    List.map_map]
  have he : ((fun x => (x - (a * listMean xs + b)) ^ 2) ∘ fun x => a * x + b)
      = fun x => a ^ 2 * (x - listMean xs) ^ 2 := by
    funext x
    simp only [Function.comp]
    ring
  rw [he, List.sum_map_mul_left, mul_div_assoc]

theorem sampleVar_nonneg (xs : List ℝ) (h2 : 2 ≤ xs.length) :
    0 ≤ sampleVar xs := by
  apply div_nonneg
  · apply List.sum_nonneg
    intro y hy
    obtain ⟨x, _, rfl⟩ := List.mem_map.1 hy
    positivity
  · have : (2 : ℝ) ≤ (xs.length : ℝ) := by exact_mod_cast h2
    linarith

/-- C3 counterexample: on a single-observation series the claimed sentinel 0
is NOT produced; pandas `std` of the empty return series is NaN and the NaN
propagates, so the result is NaN (`none`). -/
theorem calculate_volatility_single_obs :
    calculate_volatility [(100 : ℝ)] true = none
    ∧ calculate_volatility [(100 : ℝ)] true ≠ some 0 := by
  have h : calculate_volatility [(100 : ℝ)] true = none := by
    simp [calculate_volatility, pct_change, stdOpt]
  exact ⟨h, by rw [h]; simp⟩

/-- C3 (amended): with at least 2 computable returns, the annualized
volatility is the sample standard deviation of the ReturnSeries times
`sqrt 252`, in percent; with fewer than 2 returns (e.g. a single observation)
the result is pandas NaN (`none`) — deterministic, but not the numeric
sentinel 0 stated in the claim. -/
theorem calculate_volatility_spec :
    (∀ prices : List ℝ, 2 ≤ (returnSeries prices).length →
      calculate_volatility prices true
        = some (Real.sqrt (sampleVar (returnSeries prices))
            * Real.sqrt 252 * 100))
    ∧ ∀ prices : List ℝ, (returnSeries prices).length < 2 →
        calculate_volatility prices true = none := by
  constructor
  · intro prices h2
    rw [calculate_volatility, pct_change_eq_returnSeries, stdOpt,
      if_neg (by omega)]
    simp
  · intro prices h
    rw [calculate_volatility, pct_change_eq_returnSeries, stdOpt, if_pos h]
    rfl

/-- Witness for C3 at the 3-observation series `[100, 110, 99]`, which has
exactly 2 returns. -/
theorem calculate_volatility_spec_witness :
    2 ≤ (returnSeries [(100 : ℝ), 110, 99]).length
    ∧ calculate_volatility [(100 : ℝ), 110, 99] true
        = some (Real.sqrt (sampleVar (returnSeries [(100 : ℝ), 110, 99]))
            * Real.sqrt 252 * 100) :=
  ⟨by simp [returnSeries], calculate_volatility_spec.1 _ (by simp [returnSeries])⟩

/-- C9: annualized or not, volatility is invariant under a uniform positive
rescaling of the whole price series, because the percentage returns it is
computed from are unchanged. -/
theorem calculate_volatility_scale_invariant (prices : List ℝ) (c : ℝ)
    (hc : 0 < c) (hpos : ∀ x ∈ prices, 0 < x) (annualize : Bool) :
    calculate_volatility (prices.map (fun x => c * x)) annualize
      = calculate_volatility prices annualize := by
  have ht : (prices.map (fun x => c * x)).tail
      = prices.tail.map (fun x => c * x) := by
    cases prices <;> simp
  have hpc : pct_change (prices.map (fun x => c * x)) = pct_change prices := by
    rw [pct_change, pct_change, ht, List.zipWith_map]
    have he : (fun (a : ℝ) (b : ℝ) => c * b / (c * a) - 1)
        = fun prev cur => cur / prev - 1 := by
      funext a b
      rw [mul_div_mul_left _ _ hc.ne']
    rw [he]
  rw [calculate_volatility, calculate_volatility, hpc]

/-- Witness for C9: doubling the two-observation series `[1, 2]` leaves the
volatility unchanged. -/
theorem calculate_volatility_scale_invariant_witness :
    ((0 : ℝ) < 2 ∧ ∀ x ∈ [(1 : ℝ), 2], 0 < x)
    ∧ calculate_volatility ([(1 : ℝ), 2].map (fun x => 2 * x)) true
        = calculate_volatility [(1 : ℝ), 2] true :=
  ⟨⟨by norm_num, by norm_num⟩,
    calculate_volatility_scale_invariant [(1 : ℝ), 2] 2 (by norm_num)
      (by norm_num) true⟩

/-- C2 counterexample: for a price series with only 1 observation the
volatility is NaN, the float guard `NaN == 0` is False so it does NOT
trigger, and the result is NaN (`none`) — not the 0 the claim states. -/
theorem calculate_sharpe_ratio_single_obs :
    calculate_sharpe_ratio [(100 : ℝ)] 0.04 = none
    ∧ calculate_sharpe_ratio [(100 : ℝ)] 0.04 ≠ some 0 := by
  have h : calculate_sharpe_ratio [(100 : ℝ)] 0.04 = none := by
    simp [calculate_sharpe_ratio, pct_change, stdOpt, meanOpt]
  exact ⟨h, by rw [h]; simp⟩

/-- C2 (amended): with at least 2 returns, the Sharpe ratio equals
`(mean(returns)*252 - riskFreeRate) / (std(returns)*sqrt 252)` when the
annualized volatility is nonzero, and is exactly 0 when that volatility is
exactly zero; with fewer than 2 returns — in particular a 1-observation
series — the volatility is NaN, the zero-volatility guard does NOT trigger,
and the result is NaN (`none`), not 0. -/
theorem calculate_sharpe_ratio_spec :
    (∀ (prices : List ℝ) (rfr : ℝ), 2 ≤ (returnSeries prices).length →
      Real.sqrt (sampleVar (returnSeries prices)) * Real.sqrt 252 ≠ 0 →
      calculate_sharpe_ratio prices rfr
        = some ((listMean (returnSeries prices) * 252 - rfr)
            / (Real.sqrt (sampleVar (returnSeries prices)) * Real.sqrt 252)))
    ∧ (∀ (prices : List ℝ) (rfr : ℝ), 2 ≤ (returnSeries prices).length →
        Real.sqrt (sampleVar (returnSeries prices)) * Real.sqrt 252 = 0 →
        calculate_sharpe_ratio prices rfr = some 0)
    ∧ ∀ (p : ℝ) (rfr : ℝ), calculate_sharpe_ratio [p] rfr = none := by
  refine ⟨?_, ?_, ?_⟩
  · intro prices rfr h2 hs
    have hne : returnSeries prices ≠ [] :=
      List.length_pos.1 (by omega)
    have hstd : stdOpt (returnSeries prices)
        = some (Real.sqrt (sampleVar (returnSeries prices))) := by
      rw [stdOpt, if_neg (by omega)]
    have hmean : meanOpt (returnSeries prices)
        = some (listMean (returnSeries prices)) := by
      rw [meanOpt, if_neg (by simpa [List.isEmpty_eq_false] using hne)]
    rw [calculate_sharpe_ratio, pct_change_eq_returnSeries, hstd, hmean]
    simp only [Option.map_some']
    rw [if_neg (by simpa using hs)]
    simp
  · intro prices rfr h2 hs
    have hstd : stdOpt (returnSeries prices)
        = some (Real.sqrt (sampleVar (returnSeries prices))) := by
      rw [stdOpt, if_neg (by omega)]
    rw [calculate_sharpe_ratio, pct_change_eq_returnSeries, hstd]
    simp only [Option.map_some']
    rw [if_pos (by simpa using hs)]
  · intro p rfr
    simp [calculate_sharpe_ratio, pct_change, stdOpt, meanOpt]

/-- Witness for C2 at the 3-observation series `[100, 110, 99]`: its two
returns `[1/10, -1/10]` have sample variance `1/50 ≠ 0`. -/
theorem calculate_sharpe_ratio_spec_witness :
    (2 ≤ (returnSeries [(100 : ℝ), 110, 99]).length
      ∧ Real.sqrt (sampleVar (returnSeries [(100 : ℝ), 110, 99]))
          * Real.sqrt 252 ≠ 0)
    ∧ calculate_sharpe_ratio [(100 : ℝ), 110, 99] 0.04
        = some ((listMean (returnSeries [(100 : ℝ), 110, 99]) * 252 - 0.04)
            / (Real.sqrt (sampleVar (returnSeries [(100 : ℝ), 110, 99]))
                * Real.sqrt 252)) := by
  have hr : returnSeries [(100 : ℝ), 110, 99] = [1/10, -1/10] := by
    norm_num [returnSeries, List.range_succ]
  have hlen : 2 ≤ (returnSeries [(100 : ℝ), 110, 99]).length := by
    rw [hr]
    norm_num
  have hv : sampleVar (returnSeries [(100 : ℝ), 110, 99]) = 1/50 := by
    rw [hr]
    norm_num [sampleVar, listMean]
  have hs : Real.sqrt (sampleVar (returnSeries [(100 : ℝ), 110, 99]))
      * Real.sqrt 252 ≠ 0 := by
    apply mul_ne_zero <;> rw [Real.sqrt_ne_zero']
    · rw [hv]; norm_num
    · norm_num
  exact ⟨⟨hlen, hs⟩, calculate_sharpe_ratio_spec.1 _ 0.04 hlen hs⟩

/-- C8: for any series with at least 2 observations and nonzero sample
variance, `normalize_series` is the elementwise z-score
`(x - mean) / std`, and the z-score list has mean exactly 0 and sample
standard deviation exactly 1; for every constant series the output is
all-NaN (`none`), never a numeric z-score series. -/
theorem normalize_series_spec :
    (∀ series : List ℝ, 2 ≤ series.length → sampleVar series ≠ 0 →
      normalize_series series
          = series.map (fun x =>
              some ((x - listMean series) / Real.sqrt (sampleVar series)))
        ∧ listMean (series.map (fun x =>
            (x - listMean series) / Real.sqrt (sampleVar series))) = 0
        ∧ stdOpt (series.map (fun x =>
            (x - listMean series) / Real.sqrt (sampleVar series))) = some 1)
    ∧ ∀ (c : ℝ) (n : ℕ),
        normalize_series (List.replicate n c) = List.replicate n none := by
  constructor
  · intro series h2 hvar
    have hne : series ≠ [] := List.length_pos.1 (by omega)
    have hvpos : 0 < sampleVar series :=
      lt_of_le_of_ne (sampleVar_nonneg series h2) (Ne.symm hvar)
    have hs : Real.sqrt (sampleVar series) ≠ 0 := Real.sqrt_ne_zero'.mpr hvpos
    have hstd : stdOpt series = some (Real.sqrt (sampleVar series)) := by
      rw [stdOpt, if_neg (by omega)]
    have haff : (fun x : ℝ => (x - listMean series) / Real.sqrt (sampleVar series))
        = fun x => (Real.sqrt (sampleVar series))⁻¹ * x
            + -(listMean series / Real.sqrt (sampleVar series)) := by
      funext x
      ring
    refine ⟨?_, ?_, ?_⟩
    · simp only [normalize_series, hstd]
      rw [if_neg hs]
    · rw [haff, listMean_map_affine _ _ _ hne]
      field_simp
    · have hlen2 : 2 ≤ (series.map (fun x =>
          (x - listMean series) / Real.sqrt (sampleVar series))).length := by
        rw [List.length_map]
        exact h2
      have hv1 : sampleVar (series.map (fun x =>
          (x - listMean series) / Real.sqrt (sampleVar series))) = 1 := by
        rw [haff, sampleVar_map_affine _ _ _ hne, inv_pow,
          Real.sq_sqrt hvpos.le, inv_mul_cancel₀ hvar]
      rw [stdOpt, if_neg (by omega), hv1, Real.sqrt_one]
  · intro c n
    by_cases hn : n < 2
    · have hstd : stdOpt (List.replicate n c) = none := by
        rw [stdOpt, if_pos (by simpa using hn)]
      simp [normalize_series, hstd, List.map_replicate]
    · have hnn : (n : ℝ) ≠ 0 := by
        have : 2 ≤ n := by omega
        positivity
      have hm : listMean (List.replicate n c) = c := by
        rw [listMean, List.sum_replicate, List.length_replicate, nsmul_eq_mul,
          mul_div_cancel_left₀ _ hnn]
      have hv : sampleVar (List.replicate n c) = 0 := by
        rw [sampleVar, hm, List.map_replicate]
        simp
      have hstd : stdOpt (List.replicate n c) = some 0 := by
        rw [stdOpt, if_neg (by simp; omega), hv, Real.sqrt_zero]
      simp [normalize_series, hstd, List.map_replicate]

/-- Witness for C8 at the 2-observation series `[1, 3]`, whose sample
variance is 2. -/
theorem normalize_series_spec_witness :
    (2 ≤ ([(1 : ℝ), 3] : List ℝ).length ∧ sampleVar [(1 : ℝ), 3] ≠ 0)
    ∧ (normalize_series [(1 : ℝ), 3]
          = [(1 : ℝ), 3].map (fun x =>
              some ((x - listMean [(1 : ℝ), 3]) / Real.sqrt (sampleVar [(1 : ℝ), 3])))
        ∧ listMean ([(1 : ℝ), 3].map (fun x =>
            (x - listMean [(1 : ℝ), 3]) / Real.sqrt (sampleVar [(1 : ℝ), 3]))) = 0
        ∧ stdOpt ([(1 : ℝ), 3].map (fun x =>
            (x - listMean [(1 : ℝ), 3]) / Real.sqrt (sampleVar [(1 : ℝ), 3])))
          = some 1) := by
  have hv : sampleVar [(1 : ℝ), 3] = 2 := by
    norm_num [sampleVar, listMean]
  exact ⟨⟨by norm_num, by rw [hv]; norm_num⟩,
    normalize_series_spec.1 [(1 : ℝ), 3] (by norm_num) (by rw [hv]; norm_num)⟩

/-- C10: every standard deviation in the engine is pandas' default sample
standard deviation (`ddof = 1`): the variance of a 2-element list divides by
`n - 1 = 1`, giving `(b-a)^2/2` (the population convention would give
`(b-a)^2/4`); consequently a single-observation series makes
`normalize_series` produce NaN for its element instead of raising, and a
2-observation price series (a single return) makes both the volatility and
the Sharpe ratio NaN (`none`) rather than 0. -/
theorem std_ddof_one_convention :
    (∀ a b : ℝ, sampleVar [a, b] = (b - a) ^ 2 / 2)
    ∧ (∀ x : ℝ, normalize_series [x] = [none])
    ∧ (∀ (p q : ℝ) (annualize : Bool),
        calculate_volatility [p, q] annualize = none)
    ∧ ∀ (p q rfr : ℝ), calculate_sharpe_ratio [p, q] rfr = none := by
  refine ⟨?_, ?_, ?_, ?_⟩
  · intro a b
    have h : sampleVar [a, b]
        = ((a - (a + b) / 2) ^ 2 + ((b - (a + b) / 2) ^ 2 + 0)) / (2 - 1) := by
      norm_num [sampleVar, listMean]
    rw [h]
    ring
  · intro x
    have hstd : stdOpt [x] = none := by
      rw [stdOpt, if_pos (by norm_num)]
    simp [normalize_series, hstd]
  · intro p q annualize
    have hstd : stdOpt (pct_change [p, q]) = none := by
      rw [stdOpt, if_pos (by norm_num [pct_change])]
    rw [calculate_volatility, hstd]
    rfl
  · intro p q rfr
    have hstd : stdOpt (pct_change [p, q]) = none := by
      rw [stdOpt, if_pos (by norm_num [pct_change])]
    rw [calculate_sharpe_ratio, hstd]
    simp [meanOpt, pct_change]

/-- pandas `Series.pct_change()` WITHOUT `dropna`, as used in the correlation
block of `src/untitled0.py` (lines 1136–1137): NaN (`none`) at row 0, then
the ordinary percentage returns, aligned to the merged price rows. -/
def pct_change_full {K : Type} [LinearOrderedField K] : List K → List (Option K)
  | [] => []
  | p :: rest =>
      none :: List.zipWith (fun prev cur => some (cur / prev - 1)) (p :: rest) rest

/-- Pearson correlation coefficient of a list of fully observed pairs, as
pandas computes it: centred cross-products divided by the product of the
square roots of the centred sums of squares; NaN (`none`) when either window
has zero sum of squared deviations, which also covers windows of fewer than
2 pairs. -/
noncomputable def pearson (ps : List (ℝ × ℝ)) : Option ℝ :=
  let xs := ps.map Prod.fst
  let ys := ps.map Prod.snd
  let sx := (xs.map (fun x => (x - listMean xs) ^ 2)).sum
  let sy := (ys.map (fun y => (y - listMean ys) ^ 2)).sum
  if sx = 0 ∨ sy = 0 then none
  else
    some ((ps.map (fun p => (p.1 - listMean xs) * (p.2 - listMean ys))).sum
      / (Real.sqrt sx * Real.sqrt sy))

/-- All-or-nothing extraction of a window of option pairs: `some` of the
values when every pair is fully observed, `none` as soon as any NaN is
present — pandas' rolling default `min_periods = window` makes any window
containing a NaN produce NaN. -/
def validPairs {K : Type} : List (Option K × Option K) → Option (List (K × K))
  | [] => some []
  | (some a, some b) :: rest => (validPairs rest).map (fun t => (a, b) :: t)
  | _ => none

/-- `Return1.rolling(window=w).corr(Return2)` from line 1140 of
`src/untitled0.py`: at row `i`, NaN (`none`) until `w` rows exist, otherwise
the Pearson correlation over the trailing `w` row-aligned pairs, NaN if any
pair in the window is NaN. -/
noncomputable def rollingCorr (xs ys : List (Option ℝ)) (w : ℕ) :
    List (Option ℝ) :=
  (List.range xs.length).map (fun i =>
    if i + 1 < w then none
    else
      match validPairs (((xs.zip ys).drop (i + 1 - w)).take w) with
      | none => none
      | some ps => pearson ps)

/-- The `Rolling_Corr` column of `merged_corr` (lines 1136–1140): pct_change
(with its NaN head) of each merged price column, then rolling correlation
over window `w`. -/
noncomputable def Rolling_Corr (prices1 prices2 : List ℝ) (w : ℕ) :
    List (Option ℝ) :=
  rollingCorr (pct_change_full prices1) (pct_change_full prices2) w

theorem pct_change_full_cons {K : Type} [LinearOrderedField K]
    (p : K) (rest : List K) :
    pct_change_full (p :: rest) = none :: (pct_change (p :: rest)).map some := by
  simp only [pct_change_full, pct_change, List.tail_cons, List.map_zipWith]

theorem pct_change_full_length {K : Type} [LinearOrderedField K]
    (prices : List K) :
    (pct_change_full prices).length = prices.length := by
  cases prices with
  | nil => rfl
  | cons p rest => simp [pct_change_full]

theorem validPairs_map_some :
    ∀ ps : List (ℝ × ℝ), validPairs (ps.map (Prod.map some some)) = some ps := by
  intro ps
  induction ps with
  | nil => rfl
  | cons p rest ih =>
    rcases p with ⟨a, b⟩
    simp [validPairs, Prod.map, ih]

theorem validPairs_none_fst (y : Option ℝ) (rest : List (Option ℝ × Option ℝ)) :
    validPairs ((none, y) :: rest) = none := by
  cases y <;> rfl

theorem rollingCorr_length (xs ys : List (Option ℝ)) (w : ℕ) :
    (rollingCorr xs ys w).length = xs.length := by
  simp [rollingCorr]

theorem rollingCorr_getD (xs ys : List (Option ℝ)) (w : ℕ) (i : ℕ)
    (h : i < xs.length) :
    (rollingCorr xs ys w).getD i none
      = if i + 1 < w then none
        else
          match validPairs (((xs.zip ys).drop (i + 1 - w)).take w) with
          | none => none
          | some ps => pearson ps := by
  have hlen : i < (rollingCorr xs ys w).length := by
    rw [rollingCorr_length]
    exact h
  rw [List.getD_eq_getElem _ _ hlen]
  simp only [rollingCorr, List.getElem_map, List.getElem_range]

/-- C6: over two date-aligned price columns of equal length, the rolling
correlation column has the same length; every row before a full window of
returns exists carries no value (`none`, pandas NaN — the head row has no
return and the next `w - 1` rows have too few); and the row carrying return
position `j` (row `j + 1`), for every `j ≥ w - 1`, is exactly the Pearson
correlation of the two return series over the trailing `w` observations
ending at `j`. -/
theorem Rolling_Corr_spec (prices1 prices2 : List ℝ) (w : ℕ) (hw : 1 ≤ w)
    (hlen : prices1.length = prices2.length) :
    (Rolling_Corr prices1 prices2 w).length = prices1.length
    ∧ (∀ i, i < w → (Rolling_Corr prices1 prices2 w).getD i none = none)
    ∧ ∀ j, w ≤ j + 1 → j + 1 < prices1.length →
        (Rolling_Corr prices1 prices2 w).getD (j + 1) none
          = pearson ((((pct_change prices1).zip (pct_change prices2)).drop
              (j + 1 - w)).take w) := by
  refine ⟨?_, ?_, ?_⟩
  · rw [Rolling_Corr, rollingCorr_length, pct_change_full_length]
  · intro i hi
    by_cases hin : i < (pct_change_full prices1).length
    · rw [Rolling_Corr, rollingCorr_getD _ _ _ _ hin]
      by_cases hiw : i + 1 < w
      · rw [if_pos hiw]
      · rw [if_neg hiw]
        have hieq : i + 1 = w := by omega
        have hp1 : prices1 ≠ [] := by
          rw [pct_change_full_length] at hin
          exact List.length_pos.1 (by omega)
        have hp2 : prices2 ≠ [] := by
          rw [pct_change_full_length, hlen] at hin
          exact List.length_pos.1 (by omega)
        obtain ⟨p1, r1, rfl⟩ := List.exists_cons_of_ne_nil hp1
        obtain ⟨p2, r2, rfl⟩ := List.exists_cons_of_ne_nil hp2
        rw [pct_change_full_cons, pct_change_full_cons, List.zip_cons_cons]
        have hdrop : i + 1 - w = 0 := by omega
        rw [hdrop, List.drop_zero]
        obtain ⟨w', rfl⟩ : ∃ w', w = w' + 1 := ⟨w - 1, by omega⟩
        rw [List.take_succ_cons, validPairs_none_fst]
    · rw [Rolling_Corr]
      apply List.getD_eq_default
      rw [rollingCorr_length]
      omega
  · intro j hwj hj
    have hin : j + 1 < (pct_change_full prices1).length := by
      rw [pct_change_full_length]
      exact hj
    have hp1 : prices1 ≠ [] := List.length_pos.1 (by omega)
    have hp2 : prices2 ≠ [] := by
      rw [hlen] at hj
      exact List.length_pos.1 (by omega)
    rw [Rolling_Corr, rollingCorr_getD _ _ _ _ hin, if_neg (by omega)]
    obtain ⟨p1, r1, rfl⟩ := List.exists_cons_of_ne_nil hp1
    obtain ⟨p2, r2, rfl⟩ := List.exists_cons_of_ne_nil hp2
    rw [pct_change_full_cons, pct_change_full_cons, List.zip_cons_cons,
      List.zip_map]
    have hd : j + 1 + 1 - w = (j + 1 - w) + 1 := by omega
    rw [hd, List.drop_succ_cons, ← List.map_drop, ← List.map_take,
      validPairs_map_some]

/-- Witness for C6 at two concrete 4-row price columns and window 2. -/
theorem Rolling_Corr_spec_witness :
    (1 ≤ 2 ∧ ([(1 : ℝ), 2, 4, 8] : List ℝ).length = [(1 : ℝ), 2, 6, 9].length)
    ∧ ((Rolling_Corr [(1 : ℝ), 2, 4, 8] [(1 : ℝ), 2, 6, 9] 2).length
          = ([(1 : ℝ), 2, 4, 8] : List ℝ).length
      ∧ (∀ i, i < 2 →
          (Rolling_Corr [(1 : ℝ), 2, 4, 8] [(1 : ℝ), 2, 6, 9] 2).getD i none = none)
      ∧ ∀ j, 2 ≤ j + 1 → j + 1 < ([(1 : ℝ), 2, 4, 8] : List ℝ).length →
          (Rolling_Corr [(1 : ℝ), 2, 4, 8] [(1 : ℝ), 2, 6, 9] 2).getD (j + 1) none
            = pearson ((((pct_change [(1 : ℝ), 2, 4, 8]).zip
                (pct_change [(1 : ℝ), 2, 6, 9])).drop (j + 1 - 2)).take 2)) :=
  ⟨⟨by norm_num, by norm_num⟩,
    Rolling_Corr_spec [(1 : ℝ), 2, 4, 8] [(1 : ℝ), 2, 6, 9] 2
      (by norm_num) (by norm_num)⟩

end Dashboard
